import Mathlib

/-!
Verification of the lang-chain-outline ingestion / RAG pipeline.

Shallow embedding of the repository's final pipeline:
  * `src/rag/agentic-chunker.ts` — structured-output extraction, document
    validation, agentic chunking (`generateDocumentChunks`);
  * `src/rag/ingestion.ts` — existence check (`documentWasAlreadyLoaded`),
    enrichment (`addSemanticMeaningAndLoadDoc`), per-document processing
    (`loadDocsToVectorDB`) and pagination (`ingest`);
  * `src/database/database.ts` — `queryDB` (errors caught, `undefined` on
    failure);
  * `src/rag/index.ts` — the retrieve → generate state graph;
  * `src/interfaces/chat.ts` and `src/interfaces/mcp-server.ts` — answer
    presentation.

External effects (the chat model, the Outline API, the Postgres store) are
modelled as explicit function parameters; a fallible call is an `Except` or
`Option` value.  JavaScript strings are modelled as `String` (lists of
characters); truthiness of a string is emptiness.
-/

namespace LangChainOutline

/-! ### JavaScript string helpers

`String.prototype.trim` removes the JS whitespace characters from both ends;
`\s` in a JS regular expression matches the same class.  The embedding covers
the ASCII whitespace characters plus NBSP, which is the character set the
pipeline can encounter in markdown documents. -/

def isJsWhitespace (c : Char) : Bool :=
  c == ' ' || c == '\t' || c == '\n' || c == '\r' ||
  c == '\x0b' || c == '\x0c' || c == ' '

def jsTrimList (l : List Char) : List Char :=
  ((l.dropWhile isJsWhitespace).reverse.dropWhile isJsWhitespace).reverse

/-- JS `text.trim()`. -/
def jsTrim (s : String) : String :=
  String.mk (jsTrimList s.data)

/-- JS `/^(\n)+$/.test(s)`: `s` is non-empty and consists of newlines only. -/
def isOnlyNewlines (s : String) : Bool :=
  !(s == "") && s.data.all (fun c => c == '\n')

/-! ### Data model (from `src/outline-api/types.ts` and usage)

`OutlineDocument` keeps the fields the pipeline reads. The fields
`parentDocumentId`, `collectionId` are read by `ingestion.ts` off the API
response; presentation-only fields (`url`, `urlId`, `revision`, author
objects, ...) are never consulted by the embedded code and are omitted. -/

structure OutlineDocument where
  id : String
  title : String
  text : String
  parentDocumentId : Option String
  collectionId : Option String
  updatedAt : String
  createdAt : String
  publishedAt : Option String
  deletedAt : Option String
deriving Repr, DecidableEq

/-- From `src/outline-api/types.ts` (`OutlineCollection`): only `id` and
`name` are consulted by the pipeline. -/
structure OutlineCollection where
  id : String
  name : String
deriving Repr, DecidableEq

/-- From `src/rag/types.ts` (imported as `ExtendedOutlineDocument` by
`rag/ingestion.ts` and `rag/agentic-chunker.ts`; the file itself is not in
the snapshot, its shape is fixed by its construction site in
`addSemanticMeaningAndLoadDoc`): an `OutlineDocument` plus the resolved
`parentDocument` title and `collectionName`. -/
structure ExtendedOutlineDocument extends OutlineDocument where
  parentDocument : String
  collectionName : String
deriving Repr, DecidableEq

/-! ### Document validator (`rag/agentic-chunker.ts`, `isDocumentValidForChunking`)

`maxDocSize` models `process.env.MAX_DOC_SIZE` already parsed: `none` when
the variable is unset. -/

def exceedsMaxSize (maxDocSize : Option Nat) (text : String) : Bool :=
  match maxDocSize with
  | some k => decide (text.length > k)
  | none => false

def isDocumentValidForChunking (maxDocSize : Option Nat)
    (document : ExtendedOutlineDocument) : Bool :=
  -- if (!document.text) return false
  if document.text = "" then false
  -- if (/^(\n)+$/.test(document.text)) return false
  else if isOnlyNewlines document.text then false
  -- if (MAX_DOC_SIZE && document.text.length > MAX_DOC_SIZE) return false
  else if exceedsMaxSize maxDocSize document.text then false
  else
    -- const trimmedText = document.text.trim();
    -- const hasOtherContent = trimmedText.length > 0 && !/^\s*$/.test(trimmedText);
    let trimmedText := jsTrim document.text
    decide (trimmedText.length > 0) && !(trimmedText.data.all isJsWhitespace)

/-! ### JSON values and `JSON.parse`

`Json` is the runtime value produced by `JSON.parse`.  Numbers keep their
lexeme (their numeric value is never consulted by the pipeline). -/

inductive Json where
  | null
  | bool (b : Bool)
  | num (lexeme : String)
  | str (s : String)
  | arr (items : List Json)
  | obj (fields : List (String × Json))
deriving Repr

def jsonWs (c : Char) : Bool :=
  c == ' ' || c == '\t' || c == '\n' || c == '\r'

def skipJsonWs (cs : List Char) : List Char := cs.dropWhile jsonWs

def isHexDigit (c : Char) : Bool :=
  c.isDigit || ('a' ≤ c && c ≤ 'f') || ('A' ≤ c && c ≤ 'F')

def hexVal (c : Char) : Nat :=
  if c.isDigit then c.toNat - '0'.toNat
  else if 'a' ≤ c && c ≤ 'f' then c.toNat - 'a'.toNat + 10
  else c.toNat - 'A'.toNat + 10

def unescapeChar (e : Char) : Option Char :=
  if e == '"' then some '"'
  else if e == '\\' then some '\\'
  else if e == '/' then some '/'
  else if e == 'b' then some '\x08'
  else if e == 'f' then some '\x0c'
  else if e == 'n' then some '\n'
  else if e == 'r' then some '\r'
  else if e == 't' then some '\t'
  else none

/-- Body of a JSON string, after the opening quote.  Unescaped control
characters are rejected; a `\uXXXX` escape decodes to the corresponding
scalar value (a lone surrogate, unrepresentable as a `Char`, degrades to
`U+0000`, a corner no claim depends on). -/
def parseStringBody : Nat → List Char → Option (List Char × List Char)
  | 0, _ => none
  | _ + 1, [] => none
  | fuel + 1, c :: rest =>
    if c == '"' then some ([], rest)
    else if c == '\\' then
      match rest with
      | 'u' :: h1 :: h2 :: h3 :: h4 :: rest2 =>
        if isHexDigit h1 && isHexDigit h2 && isHexDigit h3 && isHexDigit h4 then
          (parseStringBody fuel rest2).map (fun r =>
            (Char.ofNat (((hexVal h1 * 16 + hexVal h2) * 16 + hexVal h3) * 16 + hexVal h4) :: r.1,
             r.2))
        else none
      | e :: rest2 =>
        match unescapeChar e with
        | some c2 => (parseStringBody fuel rest2).map (fun r => (c2 :: r.1, r.2))
        | none => none
      | [] => none
    else if c.toNat < 32 then none
    else (parseStringBody fuel rest).map (fun r => (c :: r.1, r.2))

def digitSpan (cs : List Char) : List Char × List Char :=
  (cs.takeWhile Char.isDigit, cs.dropWhile Char.isDigit)

def parseIntPart : List Char → Option (List Char × List Char)
  | [] => none
  | c :: rest =>
    if c == '0' then some ([c], rest)
    else if c.isDigit then
      let (ds, rest2) := digitSpan rest
      some (c :: ds, rest2)
    else none

def parseFracPart (cs : List Char) : Option (List Char × List Char) :=
  match cs with
  | '.' :: rest =>
    let (ds, rest2) := digitSpan rest
    if ds.isEmpty then none else some ('.' :: ds, rest2)
  | _ => some ([], cs)

def parseExpPart (cs : List Char) : Option (List Char × List Char) :=
  match cs with
  | c :: rest =>
    if c == 'e' || c == 'E' then
      match rest with
      | s :: rest2 =>
        if s == '+' || s == '-' then
          let (ds, rest3) := digitSpan rest2
          if ds.isEmpty then none else some (c :: s :: ds, rest3)
        else
          let (ds, rest3) := digitSpan rest
          if ds.isEmpty then none else some (c :: ds, rest3)
      | [] => none
    else some ([], cs)
  | [] => some ([], cs)

def parseNumberLexeme (cs : List Char) : Option (List Char × List Char) := do
  let (sign, cs1) :=
    match cs with
    | '-' :: rest => (['-'], rest)
    | _ => (([] : List Char), cs)
  let (ip, cs2) ← parseIntPart cs1
  let (fp, cs3) ← parseFracPart cs2
  let (ep, cs4) ← parseExpPart cs3
  pure (sign ++ ip ++ fp ++ ep, cs4)

mutual

def parseJsonValue : Nat → List Char → Option (Json × List Char)
  | 0, _ => none
  | fuel + 1, cs =>
    match cs with
    | [] => none
    | c :: rest =>
      if c == '"' then
        (parseStringBody (rest.length + 1) rest).map
          (fun r => (Json.str (String.mk r.1), r.2))
      else if c == '[' then
        match skipJsonWs rest with
        | ']' :: rest2 => some (Json.arr [], rest2)
        | cs1 => (parseJsonItems fuel cs1).map (fun r => (Json.arr r.1, r.2))
      else if c == '\x7b' then
        match skipJsonWs rest with
        | '\x7d' :: rest2 => some (Json.obj [], rest2)
        | cs1 => (parseJsonFields fuel cs1).map (fun r => (Json.obj r.1, r.2))
      else if c == 't' then
        if ("rue".data).isPrefixOf rest then some (Json.bool true, rest.drop 3) else none
      else if c == 'f' then
        if ("alse".data).isPrefixOf rest then some (Json.bool false, rest.drop 4) else none
      else if c == 'n' then
        if ("ull".data).isPrefixOf rest then some (Json.null, rest.drop 3) else none
      else if c == '-' || c.isDigit then
        (parseNumberLexeme cs).map (fun r => (Json.num (String.mk r.1), r.2))
      else none

def parseJsonItems : Nat → List Char → Option (List Json × List Char)
  | 0, _ => none
  | fuel + 1, cs => do
    let (v, cs1) ← parseJsonValue fuel cs
    match skipJsonWs cs1 with
    | ',' :: rest => do
      let (vs, cs3) ← parseJsonItems fuel (skipJsonWs rest)
      pure (v :: vs, cs3)
    | ']' :: rest => pure ([v], rest)
    | _ => none

def parseJsonFields : Nat → List Char → Option (List (String × Json) × List Char)
  | 0, _ => none
  | fuel + 1, cs =>
    match cs with
    | '"' :: rest => do
      let (key, cs1) ← parseStringBody (rest.length + 1) rest
      match skipJsonWs cs1 with
      | ':' :: rest2 => do
        let (v, cs3) ← parseJsonValue fuel (skipJsonWs rest2)
        match skipJsonWs cs3 with
        | ',' :: rest3 => do
          let (fs, cs5) ← parseJsonFields fuel (skipJsonWs rest3)
          pure ((String.mk key, v) :: fs, cs5)
        | '\x7d' :: rest3 => pure ([(String.mk key, v)], rest3)
        | _ => none
      | _ => none
    | _ => none

end

/-- Model of `JSON.parse`: one value surrounded by optional whitespace; anything else
throws (modelled as `none`). -/
def jsonParse (s : String) : Option Json :=
  match parseJsonValue (2 * s.length + 4) (skipJsonWs s.data) with
  | some (v, rest) => if (skipJsonWs rest).isEmpty then some v else none
  | none => none

/-! ### Fenced-block extraction

`rag/agentic-chunker.ts` runs `/\x60\x60\x60json\s*\n([\s\S]*?)\n\x60\x60\x60/gm.exec(input)`
on a fresh regex, i.e. takes the leftmost match.  After the literal tag the
engine matches `\s*\n` greedily with backtracking: the consumed whitespace
ends at the last newline of the whitespace run for which the rest of the
pattern matches; the lazy group then extends to the first following
occurrence of the closing fence. -/

def openFence : List Char := "```json".data

def closeFence : List Char := "\n```".data

/-- Split a character list at the first occurrence of `sep`, returning the
parts before and after it; `none` when `sep` does not occur. -/
def splitOnSeq (sep : List Char) : List Char → Option (List Char × List Char)
  | [] => none
  | c :: cs =>
    if sep.isPrefixOf (c :: cs) then some ([], (c :: cs).drop sep.length)
    else (splitOnSeq sep cs).map (fun r => (c :: r.1, r.2))

def newlinePositions (run : List Char) : List Nat :=
  ((List.range run.length).filter (fun k => run.get? k == some '\n')).reverse

def tryNewlineCandidates (cs : List Char) : List Nat → Option (List Char)
  | [] => none
  | k :: ks =>
    match splitOnSeq closeFence (cs.drop (k + 1)) with
    | some r => some r.1
    | none => tryNewlineCandidates cs ks

/-- Attempt the tail of the pattern on `cs`, the text immediately after the
literal opening tag. -/
def matchFenceAt (cs : List Char) : Option (List Char) :=
  tryNewlineCandidates cs (newlinePositions (cs.takeWhile isJsWhitespace))

def findBlockFrom : List Char → Option (List Char)
  | [] => none
  | c :: cs =>
    if openFence.isPrefixOf (c :: cs) then
      match matchFenceAt ((c :: cs).drop openFence.length) with
      | some g => some g
      | none => findBlockFrom cs
    else findBlockFrom cs

/-- Capture group of the leftmost match of the fenced-block pattern. -/
def findJsonBlock (input : String) : Option String :=
  (findBlockFrom input.data).map String.mk

/-- From `rag/agentic-chunker.ts` (`extractJsonFromBackticks`): locate the
first fenced `json` block, `JSON.parse` its contents, and return the parsed
array; every failure (no block, empty capture — falsy `match[1]` —, a parse
exception, a non-array value) is logged and degrades to `[]`. -/
def extractJsonFromBackticks (input : String) (identifier : String) : List Json :=
  let _ := identifier   -- used only in the log messages
  match findJsonBlock input with
  | none => []
  | some blockContent =>
    if blockContent = "" then []
    else
      match jsonParse blockContent with
      | none => []
      | some (Json.arr items) => items
      | some _ => []

/-! ### Agentic chunker (`rag/agentic-chunker.ts`, `generateDocumentChunks`)

The langchain `Document` produced per extracted chunk.  `pageContent`
receives the raw array element (typed `string` in the source but in fact
whatever `JSON.parse` produced), the metadata is stamped from the enriched
document. -/

structure ChunkMetadata where
  id : String
  title : String
  parentDocumentId : Option String
  parentDocument : String
  collectionId : Option String
  collection : String
  updatedAt : String
  createdAt : String
  publishedAt : Option String
  deletedAt : Option String
deriving Repr

structure Chunk where
  pageContent : Json
  metadata : ChunkMetadata
deriving Repr

def mkChunkDoc (document : ExtendedOutlineDocument) (chunk : Json) : Chunk :=
  { pageContent := chunk
    metadata :=
      { id := document.id
        title := document.title
        parentDocumentId := document.parentDocumentId
        parentDocument := document.parentDocument
        collectionId := document.collectionId
        collection := document.collectionName
        updatedAt := document.updatedAt
        createdAt := document.createdAt
        publishedAt := document.publishedAt
        deletedAt := document.deletedAt } }

/-- The chat-model invocation `chain.invoke({ document })` (template
rendering plus generation): an oracle that either throws (`Except.error`) or
yields the raw model output.  The template itself is the fixed
`AGENTIC_CHUNKER_PROMPT` literal, so constructing it cannot throw. -/
def generateDocumentChunks (maxDocSize : Option Nat)
    (llm : ExtendedOutlineDocument → Except String String)
    (document : ExtendedOutlineDocument) : List Chunk :=
  -- if (!isDocumentValidForChunking(document)) return [];
  if isDocumentValidForChunking maxDocSize document = false then []
  else
    -- try { const response = await chain.invoke({ document }); ... }
    -- catch (e) { console.error(...); return []; }
    match llm document with
    | Except.error _ => []
    | Except.ok response =>
      (extractJsonFromBackticks response document.title).map (mkChunkDoc document)

/-! ### Database access (`src/database/database.ts`) and existence check -/

/-- From `queryDB`: runs the query, returning its rows; any error is caught
and logged and the function falls through to `undefined` (`none`).
`dbError` models whether the underlying `client.query` throws; the rows a
successful query would return are computed by the caller-specific select. -/
def queryDB (dbError : Bool) (rows : List Chunk) : Option (List Chunk) :=
  if dbError then none else some rows

/-- Rows of `SELECT * FROM outline_docs WHERE metadata->>'id' = '<docId>'`. -/
def selectByMetadataId (db : List Chunk) (docId : String) : List Chunk :=
  db.filter (fun row => row.metadata.id == docId)

/-- From `rag/ingestion.ts` (`documentWasAlreadyLoaded`):
`documentExists?.length` is truthy only when the query succeeded and
returned at least one row. -/
def documentWasAlreadyLoaded (dbError : Bool) (db : List Chunk)
    (document : OutlineDocument) : Bool :=
  match queryDB dbError (selectByMetadataId db document.id) with
  | none => false
  | some documentExists => documentExists.length != 0

/-! ### Enrichment and per-document processing (`rag/ingestion.ts`) -/

/-- From `addSemanticMeaningAndLoadDoc`: start from empty `parentDocument`
and `collectionName`, overwrite each from its API lookup when the
corresponding id is present.  `getDocById` and `getCollById` model
`requestDocumentById` / `requestCollectionById`. -/
def addSemanticMeaningAndLoadDoc (getDocById : String → OutlineDocument)
    (getCollById : String → OutlineCollection)
    (document : OutlineDocument) : ExtendedOutlineDocument :=
  { toOutlineDocument := document
    parentDocument :=
      match document.parentDocumentId with
      | some pid => (getDocById pid).title
      | none => ""
    collectionName :=
      match document.collectionId with
      | some cid => (getCollById cid).name
      | none => "" }

/-- External collaborators and configuration of one ingestion run. -/
structure IngestEnv where
  maxDocSize : Option Nat
  dbError : Bool
  getDocById : String → OutlineDocument
  getCollById : String → OutlineCollection
  llm : ExtendedOutlineDocument → Except String String

/-- Observable outcome of the per-document task in `loadDocsToVectorDB`:
the store contents afterwards, and whether the task short-circuited at the
existence check, invoked the chunker, or wrote to the store. -/
structure DocStepResult where
  db : List Chunk
  skipped : Bool
  chunkerInvoked : Bool
  upserted : Bool
deriving Repr

/-- One iteration of `docs.map(async (document) => ...)` in
`loadDocsToVectorDB`. -/
def processDocument (env : IngestEnv) (db : List Chunk)
    (document : OutlineDocument) : DocStepResult :=
  if documentWasAlreadyLoaded env.dbError db document then
    { db := db, skipped := true, chunkerInvoked := false, upserted := false }
  else
    let extendedDocument :=
      addSemanticMeaningAndLoadDoc env.getDocById env.getCollById document
    let generatedDocs := generateDocumentChunks env.maxDocSize env.llm extendedDocument
    -- if (generatedDocs.length) await vectorStore.addDocuments(generatedDocs);
    if generatedDocs.length != 0 then
      { db := db ++ generatedDocs, skipped := false, chunkerInvoked := true, upserted := true }
    else
      { db := db, skipped := false, chunkerInvoked := true, upserted := false }

/-- From `loadDocsToVectorDB`, with the page's unordered concurrent tasks
sequentialized (each task only reads the store before its own write, and the
claims proved below are order-independent). -/
def loadDocsToVectorDB (env : IngestEnv) (db : List Chunk)
    (docs : List OutlineDocument) : List Chunk :=
  docs.foldl (fun db document => (processDocument env db document).db) db

/-! ### Pagination (`rag/ingestion.ts`, `ingest`) -/

/-- From `requestLatestOutlineDocs({ page, pageSize: 100 })`: the Outline API is
queried with `offset = page * pageSize`, `limit = pageSize` over the corpus;
its `pagination.total` is the corpus length. -/
def requestLatestOutlineDocs (corpus : List OutlineDocument) (page : Nat) :
    List OutlineDocument :=
  (corpus.drop (page * 100)).take 100

/-- Pages fetched by `ingest()`, in order, as a function of the total
reported by the first page's response.  Page 0 is always fetched; when
`total > pageSize` the loop fetches pages `1 .. ceil(total/pageSize) - 1`.
`Math.ceil(total / 100)` is exact on these integers and equals
`(total + 99) / 100` in natural division. -/
def ingestFetchedPages (total : Nat) : List Nat :=
  let pageSize := 100
  if total > pageSize then
    let totalPages := (total + pageSize - 1) / pageSize
    [0] ++ (List.range totalPages).drop 1
  else [0]

/-- Documents handed to `loadDocsToVectorDB`, in submission order, across a
whole `ingest()` run. -/
def ingestProcessedDocs (corpus : List OutlineDocument) : List OutlineDocument :=
  ((ingestFetchedPages corpus.length).map (requestLatestOutlineDocs corpus)).flatten

/-- The store contents after a whole `ingest()` run. -/
def ingestRun (env : IngestEnv) (db : List Chunk)
    (corpus : List OutlineDocument) : List Chunk :=
  (ingestFetchedPages corpus.length).foldl
    (fun db page => loadDocsToVectorDB env db (requestLatestOutlineDocs corpus page)) db

/-! ### RAG workflow (`rag/index.ts`, `getRAG`)

The langgraph `StateGraph` with nodes `retrieve` and `generate` and edges
`__start__ → retrieve → generate → __end__`.  A stored row surfaces at query
time as a langchain `Document` whose `pageContent` is its stored text. -/

structure RetrievedDoc where
  pageContent : String
deriving Repr, DecidableEq

structure QueryState where
  question : String
  context : List RetrievedDoc
  answer : String
deriving Repr, DecidableEq

inductive RagNode where
  | startNode
  | retrieveNode
  | generateNode
  | endNode
deriving Repr, DecidableEq, BEq

/-- The `addEdge` calls of `getRAG`, verbatim. -/
def ragEdges : List (RagNode × RagNode) :=
  [(RagNode.startNode, RagNode.retrieveNode),
   (RagNode.retrieveNode, RagNode.generateNode),
   (RagNode.generateNode, RagNode.endNode)]

def nextRagNode (n : RagNode) : Option RagNode :=
  (ragEdges.find? (fun e => e.fst == n)).map (fun e => e.snd)

/-- Node sequence obtained by following the compiled graph's edges. -/
def ragGraphChain : Nat → RagNode → List RagNode
  | 0, n => [n]
  | fuel + 1, n =>
    n :: (match nextRagNode n with
          | some m => ragGraphChain fuel m
          | none => [])

/-- Node `retrieve`: `similaritySearch(state.question)` on the backing store (the
`MultiVectorRetriever` wrapper is constructed but only its `vectorstore` is
consulted); the ranked result becomes `context` unmodified. -/
def retrieveStep (similaritySearch : String → List RetrievedDoc)
    (state : QueryState) : QueryState :=
  { state with context := similaritySearch state.question }

/-- Node `generate`: newline-join the context's `pageContent` in order, render the
`rlm/rag-prompt` template and invoke the model — the rendering plus
invocation is the oracle `llm question docsContent`. -/
def generateStep (llm : String → String → String)
    (state : QueryState) : QueryState :=
  let docsContent := String.intercalate "\n" (state.context.map (fun doc => doc.pageContent))
  { state with answer := llm state.question docsContent }

def applyRagNode (similaritySearch : String → List RetrievedDoc)
    (llm : String → String → String) (n : RagNode) (state : QueryState) : QueryState :=
  match n with
  | RagNode.retrieveNode => retrieveStep similaritySearch state
  | RagNode.generateNode => generateStep llm state
  | _ => state

/-- From `graph.invoke({ question })`: execute the nodes in the compiled chain's
order starting from the input state. -/
def ragInvoke (similaritySearch : String → List RetrievedDoc)
    (llm : String → String → String) (question : String) : QueryState :=
  (ragGraphChain 3 RagNode.startNode).foldl
    (fun state n => applyRagNode similaritySearch llm n state)
    { question := question, context := [], answer := "" }

/-! ### Answer presentation (`interfaces/mcp-server.ts` and `interfaces/chat.ts`) -/

/-- From the `rag_query` handler: `text: result.answer || 'No answer
generated'` — the workflow's answer is presented unmodified, with a fallback
only for a falsy (empty) answer.  No reasoning-delimiter handling occurs
here. -/
def mcpRagQueryText (answer : String) : String :=
  if answer = "" then "No answer generated" else answer

/-- From `ChatInterface.handleInput`:
`result['answer'].split('</think>')[1]` — element 1 of the split, i.e. the
segment strictly between the first and second occurrences of the delimiter
(the whole tail after the delimiter when it occurs once), and `undefined`
(`none`) when the delimiter does not occur. -/
def thinkDelim : List Char := "</think>".data

def chatDisplayedAnswer (answer : String) : Option String :=
  match splitOnSeq thinkDelim answer.data with
  | none => none
  | some (_, rest) =>
    match splitOnSeq thinkDelim rest with
    | none => some (String.mk rest)
    | some (second, _) => some (String.mk second)

/-! ### Concrete sample data (used by the witness theorems below)

`sampleDocument` is the end-to-end scenario document of the spec;
`witnessParentedDoc` the same document placed under a parent and a
collection. -/

def sampleDocument : OutlineDocument :=
  { id := "d1"
    title := "Auth"
    text := "# Auth\nUse JWT tokens."
    parentDocumentId := none
    collectionId := none
    updatedAt := "2024-01-02"
    createdAt := "2024-01-01"
    publishedAt := none
    deletedAt := none }

def sampleExtended : ExtendedOutlineDocument :=
  { toOutlineDocument := sampleDocument, parentDocument := "", collectionName := "" }

def sampleModelOutput : String :=
  "```json\n[\"La autenticacion usa tokens JWT\"]\n```"

def storedSampleChunk : Chunk := mkChunkDoc sampleExtended (Json.str "dato")

def sampleEnv : IngestEnv :=
  { maxDocSize := none
    dbError := false
    getDocById := fun _ => sampleDocument
    getCollById := fun _ => { id := "c1", name := "Tech Docs" }
    llm := fun _ => Except.ok sampleModelOutput }

def sampleEnvErr : IngestEnv :=
  { sampleEnv with dbError := true }

def witnessGetDocById : String → OutlineDocument :=
  fun _ => { sampleDocument with title := "Developer Docs" }

def witnessGetCollById : String → OutlineCollection :=
  fun _ => { id := "c1", name := "Tech Docs" }

def witnessParentedDoc : OutlineDocument :=
  { sampleDocument with parentDocumentId := some "p1", collectionId := some "c1" }

def witnessEnriched : ExtendedOutlineDocument :=
  addSemanticMeaningAndLoadDoc witnessGetDocById witnessGetCollById witnessParentedDoc

def witnessLlm : ExtendedOutlineDocument → Except String String :=
  fun _ => Except.ok sampleModelOutput

def witnessChunk : Chunk :=
  mkChunkDoc witnessEnriched (Json.str "La autenticacion usa tokens JWT")

/-! ### Helper lemmas about `jsTrim` and the validator -/

theorem dropWhile_head_false (p : Char → Bool) :
    ∀ (l : List Char) (c : Char) (cs : List Char),
      l.dropWhile p = c :: cs → p c = false := by
  intro l
  induction l with
  | nil => intro c cs h; simp [List.dropWhile] at h
  | cons a as ih =>
    intro c cs h
    by_cases hp : p a = true
    · rw [List.dropWhile_cons_of_pos hp] at h
      exact ih c cs h
    · rw [List.dropWhile_cons_of_neg hp] at h
      cases h
      simpa using hp

theorem jsTrimList_all_ws (l : List Char) (h : l.all isJsWhitespace = true) :
    jsTrimList l = [] := by
  unfold jsTrimList
  have h1 : l.dropWhile isJsWhitespace = [] := by
    apply List.dropWhile_eq_nil_iff.mpr
    intro x hx
    exact List.all_eq_true.mp h x hx
  simp [h1]

theorem jsTrimList_not_all_ws (l : List Char)
    (h : jsTrimList l ≠ []) : (jsTrimList l).all isJsWhitespace = false := by
  unfold jsTrimList at *
  set inner := (l.dropWhile isJsWhitespace).reverse.dropWhile isJsWhitespace with hinner
  have hne : inner ≠ [] := fun hc => h (by rw [hc]; rfl)
  obtain ⟨c, cs, hccs⟩ := List.exists_cons_of_ne_nil hne
  have hc : isJsWhitespace c = false :=
    dropWhile_head_false isJsWhitespace _ c cs hccs
  apply Bool.eq_false_iff.mpr
  intro hall
  have hmem : c ∈ inner.reverse := by rw [hccs]; simp
  have := List.all_eq_true.mp hall c hmem
  simp [hc] at this

theorem jsTrim_eq_empty_iff (s : String) :
    jsTrim s = "" ↔ jsTrimList s.data = [] := by
  constructor
  · intro h
    have := congrArg String.data h
    simpa [jsTrim] using this
  · intro h
    unfold jsTrim
    rw [h]

theorem jsTrim_empty_of_only_newlines (s : String)
    (h : isOnlyNewlines s = true) : jsTrim s = "" := by
  unfold isOnlyNewlines at h
  rw [Bool.and_eq_true] at h
  obtain ⟨_, hall⟩ := h
  have hallws : s.data.all isJsWhitespace = true := by
    rw [List.all_eq_true]
    intro x hx
    have := List.all_eq_true.mp hall x hx
    have hx' : x = '\n' := by simpa using this
    subst hx'
    rfl
  exact (jsTrim_eq_empty_iff s).mpr (jsTrimList_all_ws s.data hallws)

theorem jsTrim_empty_of_empty (s : String) (h : s = "") : jsTrim s = "" := by
  subst h; rfl

/-- C4 core characterization: the validator rejects exactly the documents
whose trimmed text is empty or which exceed a configured ceiling. -/
theorem isValid_true_iff (m : Option Nat) (d : ExtendedOutlineDocument) :
    isDocumentValidForChunking m d = true ↔
      (jsTrim d.text ≠ "" ∧ ∀ k, m = some k → d.text.length ≤ k) := by
  unfold isDocumentValidForChunking
  split_ifs with h1 h2 h3
  · simp only [false_iff]
    intro ⟨htrim, _⟩
    exact htrim (jsTrim_empty_of_empty _ h1)
  · simp only [false_iff]
    intro ⟨htrim, _⟩
    exact htrim (jsTrim_empty_of_only_newlines _ h2)
  · simp only [false_iff]
    intro ⟨_, hsize⟩
    unfold exceedsMaxSize at h3
    cases hm : m with
    | none => rw [hm] at h3; cases h3
    | some k =>
      rw [hm] at h3
      have hle := hsize k hm
      have hgt := of_decide_eq_true h3
      omega
  · simp only [Bool.and_eq_true, decide_eq_true_eq, Bool.not_eq_true']
    constructor
    · intro ⟨hpos, _⟩
      refine ⟨?_, ?_⟩
      · intro hc
        rw [hc] at hpos
        simp at hpos
      · intro k hk
        unfold exceedsMaxSize at h3
        rw [hk] at h3
        simp only [decide_eq_true_eq] at h3
        omega
    · intro ⟨htrim, _⟩
      have hne : jsTrimList d.text.data ≠ [] :=
        fun hc => htrim ((jsTrim_eq_empty_iff _).mpr hc)
      refine ⟨?_, ?_⟩
      · show 0 < (jsTrimList d.text.data).length
        exact List.length_pos.mpr hne
      · exact jsTrimList_not_all_ws d.text.data hne

/-- C4: `isDocumentValidForChunking` is a pure boolean function of the
document's text and the configured maximum size: it returns false exactly
when the text is absent/empty, consists only of newline characters, is
empty/whitespace-only after trimming, or a maximum size is configured and
the text's length exceeds it; for every document with non-empty trimmed
text whose length does not exceed the configured ceiling (or with no
ceiling configured) it returns true. -/
theorem validator_spec (m : Option Nat) (d d' : ExtendedOutlineDocument) :
    (d.text = d'.text →
        isDocumentValidForChunking m d = isDocumentValidForChunking m d') ∧
    (isDocumentValidForChunking m d = false ↔
        (d.text = "" ∨ isOnlyNewlines d.text = true ∨
         jsTrim d.text = "" ∨ (jsTrim d.text).data.all isJsWhitespace = true ∨
         ∃ k, m = some k ∧ d.text.length > k)) ∧
    (jsTrim d.text ≠ "" → (∀ k, m = some k → d.text.length ≤ k) →
        isDocumentValidForChunking m d = true) := by
  refine ⟨?_, ?_, ?_⟩
  · intro h
    unfold isDocumentValidForChunking
    rw [h]
  · rw [Bool.eq_false_iff, Ne, isValid_true_iff]
    constructor
    · intro h
      push_neg at h
      by_cases ht : jsTrim d.text = ""
      · exact Or.inr (Or.inr (Or.inl ht))
      · obtain ⟨k, hk, hlen⟩ := h ht
        exact Or.inr (Or.inr (Or.inr (Or.inr ⟨k, hk, by omega⟩)))
    · intro h
      rintro ⟨htrim, hsize⟩
      rcases h with h | h | h | h | ⟨k, hk, hgt⟩
      · exact htrim (jsTrim_empty_of_empty _ h)
      · exact htrim (jsTrim_empty_of_only_newlines _ h)
      · exact htrim h
      · have hne : jsTrimList d.text.data ≠ [] :=
          fun hc => htrim ((jsTrim_eq_empty_iff _).mpr hc)
        have hfalse := jsTrimList_not_all_ws d.text.data hne
        rw [show (jsTrim d.text).data = jsTrimList d.text.data from rfl, hfalse] at h
        cases h
      · have := hsize k hk
        omega
  · intro h1 h2
    exact (isValid_true_iff m d).mpr ⟨h1, h2⟩

/-- C4 witness: the concrete scenario document is accepted. -/
theorem validator_spec_witness :
    isDocumentValidForChunking none sampleExtended = true :=
  (validator_spec none sampleExtended sampleExtended).2.2 (by decide)
    (fun _ hk => nomatch hk)

/-! ### Structured-output extractor: helper facts -/

theorem jsonParse_empty : jsonParse "" = none := rfl

/-- C2: the structured-output extractor is total (never raises) and returns
the empty sequence when no fenced json block is found, when the block's
contents fail to parse as JSON, or when they parse to a non-array value;
when the first fenced block parses to a JSON array it returns exactly that
array's elements in order. -/
theorem extractor_total_spec (input identifier : String) :
    (findJsonBlock input = none → extractJsonFromBackticks input identifier = []) ∧
    (∀ c, findJsonBlock input = some c → jsonParse c = none →
        extractJsonFromBackticks input identifier = []) ∧
    (∀ c v, findJsonBlock input = some c → jsonParse c = some v →
        (∀ items, v ≠ Json.arr items) →
        extractJsonFromBackticks input identifier = []) ∧
    (∀ c items, findJsonBlock input = some c →
        jsonParse c = some (Json.arr items) →
        extractJsonFromBackticks input identifier = items) := by
  refine ⟨?_, ?_, ?_, ?_⟩
  · intro h
    simp only [extractJsonFromBackticks, h]
  · intro c h hp
    simp only [extractJsonFromBackticks, h]
    by_cases hc : c = ""
    · rw [if_pos hc]
    · rw [if_neg hc, hp]
  · intro c v h hp hv
    simp only [extractJsonFromBackticks, h]
    by_cases hc : c = ""
    · rw [if_pos hc]
    · rw [if_neg hc, hp]
      cases v with
      | arr items => exact absurd rfl (hv items)
      | null => rfl
      | bool b => rfl
      | num lexeme => rfl
      | str s => rfl
      | obj fields => rfl
  · intro c items h hp
    simp only [extractJsonFromBackticks, h]
    have hc : c ≠ "" := by
      intro hc
      rw [hc, jsonParse_empty] at hp
      cases hp
    rw [if_neg hc, hp]

/-- C2 witness: a well-formed fenced block holding the array
`["a","b"]` extracts to exactly that array, in order. -/
theorem extractor_total_spec_witness :
    extractJsonFromBackticks "```json\n[\"a\",\"b\"]\n```" "Auth" =
      [Json.str "a", Json.str "b"] :=
  (extractor_total_spec _ "Auth").2.2.2 "[\"a\",\"b\"]"
    [Json.str "a", Json.str "b"] rfl rfl

/-- C3: `generateDocumentChunks` never raises to its caller: a validation
rejection short-circuits to the empty sequence, any exception thrown by the
rendered-prompt model invocation (the fallible step of the try block; the
extraction and mapping steps are total) is caught and degrades to the empty
sequence, and on success the result is exactly the extractor's output mapped
into metadata-stamped documents. -/
theorem chunker_fail_soft (m : Option Nat)
    (llm : ExtendedOutlineDocument → Except String String)
    (d : ExtendedOutlineDocument) :
    (isDocumentValidForChunking m d = false → generateDocumentChunks m llm d = []) ∧
    (∀ e, llm d = Except.error e → generateDocumentChunks m llm d = []) ∧
    (∀ r, llm d = Except.ok r → isDocumentValidForChunking m d = true →
        generateDocumentChunks m llm d =
          (extractJsonFromBackticks r d.title).map (mkChunkDoc d)) := by
  refine ⟨?_, ?_, ?_⟩
  · intro h
    simp only [generateDocumentChunks, if_pos h]
  · intro e h
    unfold generateDocumentChunks
    by_cases hv : isDocumentValidForChunking m d = false
    · rw [if_pos hv]
    · rw [if_neg hv, h]
  · intro r h hv
    unfold generateDocumentChunks
    rw [if_neg (by simp [hv]), h]

/-- C3 witness: a throwing model invocation yields the empty sequence. -/
theorem chunker_fail_soft_witness :
    generateDocumentChunks none (fun _ => Except.error "boom") sampleExtended = [] :=
  (chunker_fail_soft none (fun _ => Except.error "boom") sampleExtended).2.1 "boom" rfl

/-! ### Existence check: helper facts -/

/-- With a working store, a row stamped with the document's id makes the
existence check succeed. -/
theorem alreadyLoaded_of_exists (db : List Chunk) (d : OutlineDocument)
    (h : ∃ c ∈ db, c.metadata.id = d.id) :
    documentWasAlreadyLoaded false db d = true := by
  obtain ⟨c, hmem, hid⟩ := h
  have hmf : c ∈ selectByMetadataId db d.id :=
    List.mem_filter.mpr ⟨hmem, by simp [hid]⟩
  have hpos : 0 < (selectByMetadataId db d.id).length :=
    List.length_pos.mpr (List.ne_nil_of_mem hmf)
  show ((selectByMetadataId db d.id).length != 0) = true
  simp only [bne_iff_ne, Ne]
  omega

/-! ### Chunk metadata: helper facts -/

/-- Every chunk produced for a document carries that document's metadata
stamp (all chunks of one document share it). -/
theorem metadata_of_mem_chunks (m : Option Nat)
    (llm : ExtendedOutlineDocument → Except String String)
    (ed : ExtendedOutlineDocument) (c : Chunk)
    (hc : c ∈ generateDocumentChunks m llm ed) :
    c.metadata = (mkChunkDoc ed Json.null).metadata := by
  unfold generateDocumentChunks at hc
  by_cases hv : isDocumentValidForChunking m ed = false
  · rw [if_pos hv] at hc
    cases hc
  · rw [if_neg hv] at hc
    cases hllm : llm ed with
    | error e =>
      rw [hllm] at hc
      cases hc
    | ok r =>
      rw [hllm] at hc
      obtain ⟨j, _, hj⟩ := List.mem_map.mp hc
      rw [← hj]
      rfl

/-- C5: every proposition produced for a document with
`parentDocumentId = P` and `collectionId = C` carries the parent title
resolved from P and the collection name resolved from C in its metadata;
with no parent / no collection the fields are the empty string (the
enrichment initializes both to `''` and only overwrites on a present id). -/
theorem metadata_resolution (getDocById : String → OutlineDocument)
    (getCollById : String → OutlineCollection) (m : Option Nat)
    (llm : ExtendedOutlineDocument → Except String String)
    (d : OutlineDocument) (c : Chunk)
    (hc : c ∈ generateDocumentChunks m llm
        (addSemanticMeaningAndLoadDoc getDocById getCollById d)) :
    (∀ p, d.parentDocumentId = some p →
        c.metadata.parentDocument = (getDocById p).title) ∧
    (d.parentDocumentId = none → c.metadata.parentDocument = "") ∧
    (∀ q, d.collectionId = some q →
        c.metadata.collection = (getCollById q).name) ∧
    (d.collectionId = none → c.metadata.collection = "") := by
  have hmeta := metadata_of_mem_chunks _ _ _ _ hc
  have hparent : c.metadata.parentDocument =
      (addSemanticMeaningAndLoadDoc getDocById getCollById d).parentDocument := by
    rw [hmeta]; rfl
  have hcoll : c.metadata.collection =
      (addSemanticMeaningAndLoadDoc getDocById getCollById d).collectionName := by
    rw [hmeta]; rfl
  refine ⟨?_, ?_, ?_, ?_⟩
  · intro p hp
    rw [hparent]
    unfold addSemanticMeaningAndLoadDoc
    rw [hp]
  · intro hp
    rw [hparent]
    unfold addSemanticMeaningAndLoadDoc
    rw [hp]
  · intro q hq
    rw [hcoll]
    unfold addSemanticMeaningAndLoadDoc
    rw [hq]
  · intro hq
    rw [hcoll]
    unfold addSemanticMeaningAndLoadDoc
    rw [hq]

/-- C5 witness: for a document under parent `p1` and collection `c1`, the
produced chunk carries the resolved parent title and collection name. -/
theorem metadata_resolution_witness :
    witnessChunk.metadata.parentDocument = "Developer Docs" ∧
    witnessChunk.metadata.collection = "Tech Docs" := by
  have hmem : witnessChunk ∈ generateDocumentChunks none witnessLlm witnessEnriched :=
    List.Mem.head _
  exact ⟨(metadata_resolution witnessGetDocById witnessGetCollById none
            witnessLlm witnessParentedDoc witnessChunk hmem).1 "p1" rfl,
         (metadata_resolution witnessGetDocById witnessGetCollById none
            witnessLlm witnessParentedDoc witnessChunk hmem).2.2.1 "c1" rfl⟩

/-- C6: every chunk produced by the chunker carries its source document's id
in its metadata — the field queried by the existence check — so every stored
row containing it is found by `documentWasAlreadyLoaded` for that
document. -/
theorem chunk_traceability (m : Option Nat)
    (llm : ExtendedOutlineDocument → Except String String)
    (ed : ExtendedOutlineDocument) (c : Chunk)
    (hc : c ∈ generateDocumentChunks m llm ed) :
    c.metadata.id = ed.id ∧
    ∀ db : List Chunk, c ∈ db →
      documentWasAlreadyLoaded false db ed.toOutlineDocument = true := by
  have hmeta := metadata_of_mem_chunks _ _ _ _ hc
  have hid : c.metadata.id = ed.id := by rw [hmeta]; rfl
  refine ⟨hid, ?_⟩
  intro db hmem
  exact alreadyLoaded_of_exists db ed.toOutlineDocument ⟨c, hmem, hid⟩

/-- C6 witness: the concrete produced chunk carries `witnessParentedDoc.id`
and a store holding it passes the existence check. -/
theorem chunk_traceability_witness :
    witnessChunk.metadata.id = witnessParentedDoc.id ∧
    documentWasAlreadyLoaded false [witnessChunk] witnessParentedDoc = true := by
  have hmem : witnessChunk ∈ generateDocumentChunks none witnessLlm witnessEnriched :=
    List.Mem.head _
  exact ⟨(chunk_traceability none witnessLlm witnessEnriched witnessChunk hmem).1,
         (chunk_traceability none witnessLlm witnessEnriched witnessChunk hmem).2
           [witnessChunk] (List.Mem.head _)⟩

/-! ### Idempotent ingestion: helper facts -/

theorem processDocument_skip (env : IngestEnv) (db : List Chunk)
    (d : OutlineDocument) (hdb : env.dbError = false)
    (h : ∃ c ∈ db, c.metadata.id = d.id) :
    processDocument env db d =
      { db := db, skipped := true, chunkerInvoked := false, upserted := false } := by
  unfold processDocument
  rw [hdb]
  rw [if_pos (alreadyLoaded_of_exists db d h)]

theorem loadDocs_all_loaded (env : IngestEnv) (db : List Chunk)
    (hdb : env.dbError = false) :
    ∀ docs : List OutlineDocument,
      (∀ d' ∈ docs, ∃ c ∈ db, c.metadata.id = d'.id) →
      loadDocsToVectorDB env db docs = db := by
  intro docs
  induction docs with
  | nil => intro _; rfl
  | cons d rest ih =>
    intro h
    have hskip := processDocument_skip env db d hdb (h d (List.mem_cons_self d rest))
    unfold loadDocsToVectorDB at *
    rw [List.foldl_cons, hskip]
    exact ih (fun x hx => h x (List.mem_cons_of_mem d hx))

theorem ingestRun_all_loaded (env : IngestEnv) (db : List Chunk)
    (corpus : List OutlineDocument) (hdb : env.dbError = false)
    (h : ∀ d' ∈ corpus, ∃ c ∈ db, c.metadata.id = d'.id) :
    ingestRun env db corpus = db := by
  unfold ingestRun
  generalize ingestFetchedPages corpus.length = pages
  induction pages with
  | nil => rfl
  | cons p rest ih =>
    rw [List.foldl_cons]
    rw [loadDocs_all_loaded env db hdb (requestLatestOutlineDocs corpus p)]
    · exact ih
    · intro d' hd'
      apply h
      exact List.mem_of_mem_drop (List.mem_of_mem_take hd')

/-- C1: re-running ingestion against an unchanged corpus stores no duplicate
chunks: for every document that already has a stored row with its id, the
per-document step returns right after the existence check — no chunker
invocation, no store write, store unchanged — and when every document of the
corpus already has a stored row the whole paginated run leaves the store
unchanged. -/
theorem ingestion_second_run_skips (env : IngestEnv) (db : List Chunk)
    (d : OutlineDocument) (corpus : List OutlineDocument)
    (hdb : env.dbError = false) :
    ((∃ c ∈ db, c.metadata.id = d.id) →
       processDocument env db d =
         { db := db, skipped := true, chunkerInvoked := false, upserted := false }) ∧
    ((∀ d' ∈ corpus, ∃ c ∈ db, c.metadata.id = d'.id) →
       loadDocsToVectorDB env db corpus = db ∧ ingestRun env db corpus = db) := by
  constructor
  · exact processDocument_skip env db d hdb
  · intro h
    exact ⟨loadDocs_all_loaded env db hdb corpus h,
           ingestRun_all_loaded env db corpus hdb h⟩

/-- C1 witness: with the sample chunk for `d1` already stored, processing
`d1` again skips and leaves the store untouched. -/
theorem ingestion_second_run_skips_witness :
    processDocument sampleEnv [storedSampleChunk] sampleDocument =
      { db := [storedSampleChunk], skipped := true,
        chunkerInvoked := false, upserted := false } ∧
    loadDocsToVectorDB sampleEnv [storedSampleChunk] [sampleDocument] =
      [storedSampleChunk] := by
  have hall : ∀ d' ∈ [sampleDocument],
      ∃ c ∈ [storedSampleChunk], c.metadata.id = d'.id := by
    intro d' hd'
    rw [List.mem_singleton] at hd'
    subst hd'
    exact ⟨storedSampleChunk, List.Mem.head _, rfl⟩
  exact ⟨(ingestion_second_run_skips sampleEnv [storedSampleChunk] sampleDocument
            [sampleDocument] rfl).1 ⟨storedSampleChunk, List.Mem.head _, rfl⟩,
         ((ingestion_second_run_skips sampleEnv [storedSampleChunk] sampleDocument
            [sampleDocument] rfl).2 hall).1⟩

/-- C10: the existence check fails open: when the database query inside
`documentWasAlreadyLoaded` raises, `queryDB` catches the error and returns
`undefined`, `documentWasAlreadyLoaded` returns false, and the document is
treated as not yet loaded: the per-document task does not skip, invokes the
chunker, and upserts the produced chunks again — the store failure never
escapes the task and never causes a skip. -/
theorem dedup_fails_open (env : IngestEnv) (db rows : List Chunk)
    (d : OutlineDocument) (hdb : env.dbError = true) :
    queryDB true rows = none ∧
    documentWasAlreadyLoaded env.dbError db d = false ∧
    (processDocument env db d).skipped = false ∧
    (processDocument env db d).chunkerInvoked = true ∧
    (generateDocumentChunks env.maxDocSize env.llm
        (addSemanticMeaningAndLoadDoc env.getDocById env.getCollById d) ≠ [] →
      (processDocument env db d).db =
        db ++ generateDocumentChunks env.maxDocSize env.llm
          (addSemanticMeaningAndLoadDoc env.getDocById env.getCollById d)) := by
  have hloaded : documentWasAlreadyLoaded env.dbError db d = false := by
    rw [hdb]
    rfl
  have hproc : processDocument env db d =
      (let generatedDocs := generateDocumentChunks env.maxDocSize env.llm
          (addSemanticMeaningAndLoadDoc env.getDocById env.getCollById d)
       if generatedDocs.length != 0 then
         { db := db ++ generatedDocs, skipped := false,
           chunkerInvoked := true, upserted := true }
       else
         { db := db, skipped := false, chunkerInvoked := true, upserted := false }) := by
    unfold processDocument
    rw [if_neg (by simp [hloaded])]
  refine ⟨rfl, hloaded, ?_, ?_, ?_⟩
  · rw [hproc]
    by_cases hg : (generateDocumentChunks env.maxDocSize env.llm
        (addSemanticMeaningAndLoadDoc env.getDocById env.getCollById d)).length != 0
    · simp only [if_pos hg]
    · simp only [if_neg hg]
  · rw [hproc]
    by_cases hg : (generateDocumentChunks env.maxDocSize env.llm
        (addSemanticMeaningAndLoadDoc env.getDocById env.getCollById d)).length != 0
    · simp only [if_pos hg]
    · simp only [if_neg hg]
  · intro hne
    rw [hproc]
    have hg : (generateDocumentChunks env.maxDocSize env.llm
        (addSemanticMeaningAndLoadDoc env.getDocById env.getCollById d)).length != 0 := by
      simp only [bne_iff_ne, Ne]
      intro hzero
      exact hne (List.length_eq_zero.mp hzero)
    simp only [if_pos hg]

/-- C10 witness: with a failing store, the document whose chunk is already
stored is still not skipped and the chunker runs again. -/
theorem dedup_fails_open_witness :
    documentWasAlreadyLoaded sampleEnvErr.dbError [storedSampleChunk] sampleDocument = false ∧
    (processDocument sampleEnvErr [storedSampleChunk] sampleDocument).skipped = false ∧
    (processDocument sampleEnvErr [storedSampleChunk] sampleDocument).chunkerInvoked = true :=
  ⟨(dedup_fails_open sampleEnvErr [storedSampleChunk] [] sampleDocument rfl).2.1,
   (dedup_fails_open sampleEnvErr [storedSampleChunk] [] sampleDocument rfl).2.2.1,
   (dedup_fails_open sampleEnvErr [storedSampleChunk] [] sampleDocument rfl).2.2.2.1⟩

/-- C7: the compiled graph is the linear chain
start → retrieve → generate → end, so in every invocation the retrieve stage
completes before the generate stage begins; the context generate consumes is
exactly the sequence returned by `similaritySearch`, unmodified in content
and order, and generate's prompt context is the newline-join of the context
items' `pageContent` in that order. -/
theorem rag_workflow_spec :
    ragGraphChain 3 RagNode.startNode =
      [RagNode.startNode, RagNode.retrieveNode, RagNode.generateNode, RagNode.endNode] ∧
    (∀ (similaritySearch : String → List RetrievedDoc)
       (llm : String → String → String) (question : String),
       ragInvoke similaritySearch llm question =
         generateStep llm (retrieveStep similaritySearch
           { question := question, context := [], answer := "" })) ∧
    (∀ (similaritySearch : String → List RetrievedDoc)
       (llm : String → String → String) (question : String),
       ragInvoke similaritySearch llm question =
         { question := question
           context := similaritySearch question
           answer := llm question (String.intercalate "\n"
             ((similaritySearch question).map (fun doc => doc.pageContent))) }) :=
  ⟨rfl, fun _ _ _ => rfl, fun _ _ _ => rfl⟩

/-! ### Pagination: helper facts -/

theorem ingestFetchedPages_150 : ingestFetchedPages 150 = [0, 1] := by decide

/-- C8 (amended): for a source reporting a total of 150 documents with page
size 100, `ingest()` issues exactly 2 page fetches — page 0 then page 1 —
and submits each of the 150 documents to per-document processing exactly
once; in general the number of fetches is `max 1 (ceil(total / pageSize))`
computed from the first page's reported total only (the first page is
always fetched, even when the reported total is 0). -/
theorem ingest_pagination_spec :
    (∀ corpus : List OutlineDocument, corpus.length = 150 →
       ingestFetchedPages corpus.length = [0, 1] ∧
       ingestProcessedDocs corpus = corpus) ∧
    (∀ total : Nat,
       (ingestFetchedPages total).length = max 1 ((total + 100 - 1) / 100)) := by
  constructor
  · intro corpus hlen
    rw [hlen]
    refine ⟨ingestFetchedPages_150, ?_⟩
    unfold ingestProcessedDocs
    rw [hlen, ingestFetchedPages_150]
    have htake : (corpus.drop 100).take 100 = corpus.drop 100 := by
      apply List.take_of_length_le
      rw [List.length_drop, hlen]
      omega
    have h0 : requestLatestOutlineDocs corpus 0 = corpus.take 100 := by
      unfold requestLatestOutlineDocs
      norm_num
    have h1 : requestLatestOutlineDocs corpus 1 = corpus.drop 100 := by
      unfold requestLatestOutlineDocs
      norm_num [htake]
    rw [List.map_cons, List.map_cons, List.map_nil, h0, h1,
      List.flatten_cons, List.flatten_cons, List.flatten_nil, List.append_nil,
      List.take_append_drop]
  · intro total
    unfold ingestFetchedPages
    by_cases h : total > 100
    · rw [if_pos h]
      have h2 : 2 ≤ (total + 100 - 1) / 100 := by
        rw [Nat.le_div_iff_mul_le (by norm_num : 0 < 100)]
        omega
      simp only [List.length_append, List.length_drop, List.length_range,
        List.length_cons, List.length_nil]
      rw [Nat.max_eq_right (by omega)]
      omega
    · rw [if_neg h]
      have hle : (total + 100 - 1) / 100 ≤ 1 := by
        have := Nat.div_mul_le_self (total + 100 - 1) 100
        by_contra hc
        push_neg at hc
        have : 2 * 100 ≤ (total + 100 - 1) / 100 * 100 :=
          Nat.mul_le_mul_right 100 (by omega)
        omega
      simp only [List.length_cons, List.length_nil]
      rw [Nat.max_eq_left hle]

/-- C8 witness: a 150-document corpus is fetched in pages 0 and 1 and every
document is submitted exactly once. -/
theorem ingest_pagination_spec_witness :
    ingestFetchedPages (List.replicate 150 sampleDocument).length = [0, 1] ∧
    ingestProcessedDocs (List.replicate 150 sampleDocument) =
      List.replicate 150 sampleDocument :=
  ingest_pagination_spec.1 (List.replicate 150 sampleDocument) (by simp)

/-- C8 counterexample: the claim's general clause — the number of fetches is
`ceil(total / pageSize)` — fails at a reported total of 0, where the code
still fetches page 0 once while `ceil(0 / 100) = 0`. -/
theorem ingest_pagination_cx :
    (ingestFetchedPages 0).length ≠ (0 + 100 - 1) / 100 := by decide

/-! ### Splitting on the reasoning delimiter: helper facts -/

theorem splitOnSeq_of_prefix (sep l : List Char) (hsep : sep ≠ [])
    (h : sep.isPrefixOf l = true) :
    splitOnSeq sep l = some ([], l.drop sep.length) := by
  cases l with
  | nil =>
    cases sep with
    | nil => exact absurd rfl hsep
    | cons s ss => simp [List.isPrefixOf] at h
  | cons c cs =>
    unfold splitOnSeq
    rw [if_pos h]

theorem splitOnSeq_cons_neg (sep : List Char) (c : Char) (cs : List Char)
    (h : sep.isPrefixOf (c :: cs) = false) :
    splitOnSeq sep (c :: cs) = (splitOnSeq sep cs).map (fun r => (c :: r.1, r.2)) := by
  simp [splitOnSeq, h]

/-- The function `splitOnSeq` splits at the first occurrence: if no occurrence of `sep`
starts inside the prefix `a`, the string `a ++ sep ++ b` splits into
`(a, b)`. -/
theorem splitOnSeq_append (sep : List Char) (hsep : sep ≠ []) :
    ∀ a b : List Char,
      (∀ i, i < a.length → sep.isPrefixOf ((a ++ sep ++ b).drop i) = false) →
      splitOnSeq sep (a ++ sep ++ b) = some (a, b) := by
  intro a
  induction a with
  | nil =>
    intro b _
    have hpre : sep.isPrefixOf (sep ++ b) = true := by
      rw [List.isPrefixOf_iff_prefix]
      exact List.prefix_append sep b
    have := splitOnSeq_of_prefix sep (sep ++ b) hsep hpre
    simpa [List.drop_left] using this
  | cons x xs ih =>
    intro b h
    have h0 : sep.isPrefixOf (x :: (xs ++ (sep ++ b))) = false := by
      have := h 0 (by simp)
      simpa using this
    have hstep : (x :: xs) ++ sep ++ b = x :: (xs ++ (sep ++ b)) := by simp
    have hshift : ∀ i, i < xs.length →
        sep.isPrefixOf ((xs ++ sep ++ b).drop i) = false := by
      intro i hi
      have := h (i + 1) (by simp; omega)
      rw [hstep] at this
      simpa using this
    have hassoc : xs ++ (sep ++ b) = xs ++ sep ++ b := (List.append_assoc xs sep b).symm
    rw [hstep, splitOnSeq_cons_neg sep x _ h0, hassoc, ih b hshift]
    rfl

/-- C9 counterexample: the claim fails on the code.  The chat interface does
not present the full output when no delimiter is present (it presents
`undefined`), and the `rag_query` MCP handler presents the full model
output unchanged even when the delimiter is present. -/
theorem answer_presentation_cx :
    chatDisplayedAnswer "Hola" ≠ some "Hola" ∧
    mcpRagQueryText "razonando</think>respuesta" ≠ "respuesta" := by
  constructor
  · decide
  · decide

/-- C9 (amended): delimiter handling exists only in the chat interface,
which presents the segment strictly between the first and second
occurrences of the reasoning delimiter — the whole tail after the first
occurrence when it occurs exactly once — and presents `undefined` (not the
full output) when the delimiter is absent; the MCP `rag_query` handler
presents the full model output unmodified (with a fixed fallback text for
an empty answer), with no delimiter handling at all. -/
theorem answer_presentation_amended :
    (∀ a b : List Char,
       (∀ i, i < a.length →
          thinkDelim.isPrefixOf ((a ++ thinkDelim ++ b).drop i) = false) →
       splitOnSeq thinkDelim b = none →
       chatDisplayedAnswer (String.mk (a ++ thinkDelim ++ b)) =
         some (String.mk b)) ∧
    (∀ s : String, splitOnSeq thinkDelim s.data = none →
       chatDisplayedAnswer s = none) ∧
    (chatDisplayedAnswer "antes</think>medio</think>despues" = some "medio") ∧
    (∀ s : String, s ≠ "" → mcpRagQueryText s = s) ∧
    (mcpRagQueryText "" = "No answer generated") := by
  refine ⟨?_, ?_, ?_, ?_, ?_⟩
  · intro a b hfirst hnone
    have hsplit := splitOnSeq_append thinkDelim (by decide) a b hfirst
    unfold chatDisplayedAnswer
    rw [show (String.mk (a ++ thinkDelim ++ b)).data = a ++ thinkDelim ++ b from rfl]
    rw [hsplit]
    show (match splitOnSeq thinkDelim b with
          | none => some (String.mk b)
          | some (second, _) => some (String.mk second)) = some (String.mk b)
    rw [hnone]
  · intro s h
    unfold chatDisplayedAnswer
    rw [h]
  · rfl
  · intro s h
    unfold mcpRagQueryText
    rw [if_neg h]
  · rfl

/-- C9 witness: a single-delimiter output displays its tail in the chat
interface, and a delimiter-free output displays `undefined`. -/
theorem answer_presentation_amended_witness :
    chatDisplayedAnswer (String.mk ("razonamiento".data ++ thinkDelim ++ "respuesta".data)) =
      some (String.mk "respuesta".data) ∧
    chatDisplayedAnswer "Hola" = none :=
  ⟨answer_presentation_amended.1 "razonamiento".data "respuesta".data
      (by decide) (by decide),
   answer_presentation_amended.2.1 "Hola" (by decide)⟩

end LangChainOutline
